import Mathlib

/-!
Verification of the stencil scaffolding generator (src/stencil/generate.py)
against its natural-language specification.

The Python source is shallowly embedded: YAML/Python values are modelled by
the inductive `PyVal` (with Python truthiness), the manifest by `Config`,
and each function of generate.py by a Lean function of the same name.
Filesystem state is modelled explicitly where an operation touches it.
-/

set_option maxHeartbeats 1000000

namespace Stencil

/-- Model of a Python value as produced by YAML parsing: the shapes that
generate.py manipulates (None, booleans, integers, strings, lists, and
string-keyed dicts). -/
inductive PyVal where
  | none
  | bool (b : Bool)
  | int (n : Int)
  | str (s : String)
  | list (l : List PyVal)
  | dict (l : List (String × PyVal))

/-- Python truthiness of a value (`if not x`, `if x`). -/
def PyVal.truthy : PyVal → Bool
  | .none => false
  | .bool b => b
  | .int n => n != 0
  | .str s => !s.data.isEmpty
  | .list l => !l.isEmpty
  | .dict l => !l.isEmpty

/-- Python `d.get(k)` on a dict value: `Option.none` when the key is absent
or the value is not a dict. -/
def PyVal.get? : PyVal → String → Option PyVal
  | .dict l, k => l.lookup k
  | _, _ => Option.none

/-- Python `d.get(k, default)`. -/
def PyVal.getD (v : PyVal) (k : String) (d : PyVal) : PyVal :=
  (v.get? k).getD d

/-- View a value as a list, as the source does when it iterates a
list-typed manifest field (non-lists are treated as empty; the model
assumes list-shaped fields where the source iterates them). -/
def PyVal.asList : PyVal → List PyVal
  | .list l => l
  | _ => []

/-- View a value as a dict association list. -/
def PyVal.asDict : PyVal → List (String × PyVal)
  | .dict l => l
  | _ => []

/-- Rendering of a scalar value into an f-string, for path-building
interpolations such as a copy destination. -/
def PyVal.pyStr : PyVal → String
  | .str s => s
  | .bool true => "True"
  | .bool false => "False"
  | .int n => toString n
  | .none => "None"
  | _ => ""

/-- Python string equality test `v == s` between a value and a string
literal (true only when the value is that very string). -/
def PyVal.isStr (v : PyVal) (s : String) : Bool :=
  match v with
  | .str t => t == s
  | _ => false

/-- Python membership test of a string in a list value (`"web" in services`):
true when some element equals the string. -/
def pyStrMem (s : String) (l : List PyVal) : Bool :=
  l.any (fun v => v.isStr s)

/-- A `when` clause of a template definition: a single flag name or a list
of flag names (the two shapes render_templates normalizes). -/
inductive WhenSpec where
  | one (flag : String)
  | many (flags : List String)
  deriving DecidableEq

/-- A template definition from the manifest `templates` list: `src`,
optional `dest` (defaulting to `src` minus a  `.j2` suffix) and an optional
`when` clause. -/
structure TDef where
  src : String
  dest : Option String
  whenClause : Option WhenSpec
  deriving DecidableEq

/-- The loaded manifest: the `packages` mapping (package id to its raw
definition value) and the global `templates` list. -/
structure Config where
  packages : List (String × PyVal)
  templates : List TDef

/-- Python `config.get("packages", {}).get(package_id)`. -/
def lookupPackage (config : Config) (pid : String) : Option PyVal :=
  config.packages.lookup pid

/-- Validation errors raised by get_template_context, carrying the
offending package id (and invalid value where the message embeds one). -/
inductive CtxError where
  | unknownPackage (pid : String)
  | missingPackageType (pid : String)
  | invalidPackageType (pid : String) (t : PyVal)
  | missingPackageName (pid : String)

/-- Embedding of get_template_context: builds the template context for a
package, raising the same validation errors in the same order as the
source (unknown/falsy package, missing package_type, package_type outside
(doc, zip), missing package_name for zip packages). -/
def get_template_context (package_id : String) (config : Config) :
    Except CtxError PyVal :=
  let package := (lookupPackage config package_id).getD PyVal.none
  if !package.truthy then
    Except.error (.unknownPackage package_id)
  else
    let services := package.getD "services" (.list [])
    let has_web := pyStrMem "web" services.asList
    let has_mysql := pyStrMem "mysql" services.asList
    let has_services := !services.asList.isEmpty
    let package_type := package.getD "package_type" PyVal.none
    if !package_type.truthy then
      Except.error (.missingPackageType package_id)
    else if !(package_type.isStr "doc" || package_type.isStr "zip") then
      Except.error (.invalidPackageType package_id package_type)
    else
      let package_name := package.getD "package_name" PyVal.none
      if package_type.isStr "zip" && !package_name.truthy then
        Except.error (.missingPackageName package_id)
      else
        let docs := package.getD "docs" (.list [])
        let sql_imports : List PyVal :=
          match package.getD "sql_import" PyVal.none with
          | PyVal.none => []
          | PyVal.list l => l
          | v => [v]
        Except.ok (PyVal.dict
          [ ("package_id", .str package_id),
            ("name", package.getD "name" (.str package_id)),
            ("package_name", package_name),
            ("package_dir", package.getD "dir" (.str package_id)),
            ("package_type", package_type),
            ("package_folder", package.getD "package_folder" (.str "htdocs")),
            ("docs", docs),
            ("has_docs", .bool docs.truthy),
            ("services", services),
            ("has_web", .bool has_web),
            ("has_mysql", .bool has_mysql),
            ("has_services", .bool has_services),
            ("sql_imports", .list sql_imports),
            ("deps_script", package.getD "deps_script" PyVal.none),
            ("copy_files", package.getD "copy_files" PyVal.none) ])

/-- Python `s.endswith(suffix)`, computed on the character lists so that
it evaluates inside the kernel. -/
def strEndsWith (s suffix : String) : Bool :=
  suffix.data.isSuffixOf s.data

/-- Python `s.removesuffix(suffix)`. -/
def removeSuffix (s suffix : String) : String :=
  if strEndsWith s suffix then String.mk (s.data.take (s.data.length - suffix.data.length))
  else s

/-- The output name of a template: explicit `dest`, else `src` with a
trailing `.j2` stripped. -/
def destOf (t : TDef) : String :=
  t.dest.getD (removeSuffix t.src ".j2")

/-- Normalization of a `when` clause to a list of flag names
(a bare string becomes a singleton list). -/
def whenFlags : WhenSpec → List String
  | .one f => [f]
  | .many fs => fs

/-- Embedding of the template-selection loop of render_templates: walk the
manifest template list in order; keep a template when its `when` clause is
absent or every named context flag is truthy (a key absent from the
context yields None, which is falsy). -/
def selectTemplates (tdefs : List TDef) (ctx : PyVal) : List (String × String) :=
  match tdefs with
  | [] => []
  | t :: rest =>
    match t.whenClause with
    | Option.none => (t.src, destOf t) :: selectTemplates rest ctx
    | Option.some w =>
      if (whenFlags w).all (fun k => (ctx.getD k PyVal.none).truthy) then
        (t.src, destOf t) :: selectTemplates rest ctx
      else
        selectTemplates rest ctx

/-- The selection condition of one template definition, as the loop
evaluates it: no `when` clause, or all named flags truthy in the context. -/
def whenOk (ctx : PyVal) (t : TDef) : Bool :=
  match t.whenClause with
  | Option.none => true
  | Option.some w => (whenFlags w).all (fun k => (ctx.getD k PyVal.none).truthy)

theorem selectTemplates_eq_filter (tdefs : List TDef) (ctx : PyVal) :
    selectTemplates tdefs ctx =
      (tdefs.filter (whenOk ctx)).map (fun t => (t.src, destOf t)) := by
  induction tdefs with
  | nil => rfl
  | cons t rest ih =>
    rcases hw : t.whenClause with _ | w
    · simp [selectTemplates, hw, whenOk, List.filter_cons, ih]
    · simp only [selectTemplates, hw, whenOk, List.filter_cons]
      split <;> simp [ih]

/-- Embedding of the template-file collection of get_generated_files:
each template's destination (defaulted from `src`), kept when non-empty. -/
def templateFiles (tdefs : List TDef) : List String :=
  tdefs.filterMap (fun t => if destOf t = "" then Option.none else Option.some (destOf t))

/-- Embedding of the per-package part of get_generated_files: template
destinations, copy_files entries, the scripts directory when deps_script
is set, a glob per markdown doc, and the package_name artifact — each
prefixed by the package directory. -/
def packageEntries (tfiles : List String) (pid : String) (package : PyVal) : List String :=
  let pkg_dir := (package.getD "dir" (.str pid)).pyStr
  (tfiles.map (fun f => pkg_dir ++ "/" ++ f)) ++
  ((package.getD "copy_files" (.list [])).asList.filterMap (fun item =>
    match item with
    | .str s => Option.some (pkg_dir ++ "/" ++ s)
    | _ =>
      let dest := item.getD "dest" (item.getD "src" (.str ""))
      if dest.truthy then Option.some (pkg_dir ++ "/" ++ dest.pyStr) else Option.none)) ++
  (if (package.getD "deps_script" PyVal.none).truthy then [pkg_dir ++ "/scripts/"] else []) ++
  ((package.getD "docs" (.list [])).asList.filterMap (fun md =>
    match md with
    | .str s =>
      if strEndsWith s ".md" then Option.some (pkg_dir ++ "/" ++ removeSuffix s ".md" ++ "*.html")
      else Option.none
    | _ => Option.none)) ++
  (let pn := package.getD "package_name" PyVal.none;
   if pn.truthy then [pkg_dir ++ "/" ++ pn.pyStr] else [])

/-- Lexicographic comparison of character lists by code point, the order
Python's sorted() applies to strings. -/
def strLeB : List Char → List Char → Bool
  | [], _ => true
  | _ :: _, [] => false
  | a :: as, b :: bs => if a < b then true else if b < a then false else strLeB as bs

/-- Lexicographic string comparison by code point. -/
def strLe (a b : String) : Bool := strLeB a.data b.data

/-- Embedding of get_generated_files: the union over all packages of their
entries, as a sorted deduplicated list (the source collects into a Python
set and returns `sorted(entries)`). -/
def get_generated_files (config : Config) : List String :=
  let tfiles := templateFiles config.templates
  ((config.packages.foldr (fun pp acc => packageEntries tfiles pp.1 pp.2 ++ acc) []).dedup).insertionSort
    (fun a b => strLe a b = true)

theorem isStr_truthy {v : PyVal} {s : String} (h : v.isStr s = true) (hs : ¬ s = "") :
    v.truthy = true := by
  cases v <;> simp [PyVal.isStr] at h
  next t =>
    subst h
    cases t with
    | mk l =>
      cases l with
      | nil => exact absurd rfl hs
      | cons c cs => rfl

/-- C6: template selection iterates the definitions in manifest order and
includes a template iff its `when` entry is absent, or every flag named by
`when` (a bare string read as a singleton list) is truthy in the context
(absent flags falsy, since a missing key yields None); the included
templates are a sublist of the manifest list in order. -/
theorem applicable_templates_characterization (tdefs : List TDef) (ctx : PyVal) :
    (∀ s d, ((s, d) ∈ selectTemplates tdefs ctx ↔
        ∃ t ∈ tdefs, t.src = s ∧ destOf t = d ∧
          (t.whenClause = Option.none ∨
            ∃ w, t.whenClause = Option.some w ∧
              ∀ k ∈ whenFlags w, (ctx.getD k PyVal.none).truthy = true)))
    ∧ List.Sublist (selectTemplates tdefs ctx) (tdefs.map (fun t => (t.src, destOf t))) := by
  constructor
  · intro s d
    rw [selectTemplates_eq_filter]
    simp only [List.mem_map, List.mem_filter, Prod.mk.injEq]
    constructor
    · rintro ⟨t, ⟨ht, hok⟩, hs, hd⟩
      refine ⟨t, ht, hs, hd, ?_⟩
      rcases hw : t.whenClause with _ | w
      · exact Or.inl rfl
      · refine Or.inr ⟨w, rfl, ?_⟩
        rw [whenOk, hw] at hok
        intro k hk
        exact List.all_eq_true.mp hok k hk
    · rintro ⟨t, ht, hs, hd, hwhen⟩
      refine ⟨t, ⟨ht, ?_⟩, hs, hd⟩
      rcases hwhen with hw | ⟨w, hw, hall⟩
      · rw [whenOk, hw]
      · rw [whenOk, hw]
        exact List.all_eq_true.mpr hall
  · rw [selectTemplates_eq_filter]
    exact (List.filter_sublist tdefs).map _

/-- C1 (amended): when has_docs is truthy in the context, the applicable
list is still exactly the when-filtered manifest list — no companion
document templates are injected: the result is never longer than the
manifest list and every element comes from a manifest template. -/
theorem no_companion_templates_injected (tdefs : List TDef) (ctx : PyVal)
    (_hdocs : (ctx.getD "has_docs" PyVal.none).truthy = true) :
    (selectTemplates tdefs ctx).length ≤ tdefs.length ∧
    ∀ p ∈ selectTemplates tdefs ctx, ∃ t ∈ tdefs, p = (t.src, destOf t) := by
  rw [selectTemplates_eq_filter]
  constructor
  · rw [List.length_map]
    exact List.length_filter_le _ _
  · intro p hp
    simp only [List.mem_map, List.mem_filter] at hp
    obtain ⟨t, ⟨ht, _⟩, rfl⟩ := hp
    exact ⟨t, ht, rfl⟩

/-- A manifest with one doc-type package declaring one document and a
single manifest template, used to exercise the has_docs path. -/
def exCfgDocs : Config :=
  ⟨[("p1", PyVal.dict
      [("package_type", PyVal.str "doc"), ("docs", PyVal.list [PyVal.str "guide.md"])])],
   [⟨"readme.md.j2", Option.none, Option.none⟩]⟩

/-- The context built for package p1 of exCfgDocs. -/
def exCtxDocs : PyVal :=
  match get_template_context "p1" exCfgDocs with
  | Except.ok c => c
  | Except.error _ => PyVal.none

/-- C1 counterexample: for a package whose context has has_docs true, the
applicable-template list is just the manifest template — no three
companion document templates are prepended ahead of it. -/
theorem companion_templates_missing_cex :
    (exCtxDocs.getD "has_docs" PyVal.none).truthy = true ∧
    selectTemplates exCfgDocs.templates exCtxDocs = [("readme.md.j2", "readme.md")] :=
  ⟨by decide, by decide⟩

theorem no_companion_templates_injected_witness :
    (exCtxDocs.getD "has_docs" PyVal.none).truthy = true ∧
    ((selectTemplates exCfgDocs.templates exCtxDocs).length ≤ exCfgDocs.templates.length ∧
      ∀ p ∈ selectTemplates exCfgDocs.templates exCtxDocs,
        ∃ t ∈ exCfgDocs.templates, p = (t.src, destOf t)) :=
  ⟨by decide, no_companion_templates_injected exCfgDocs.templates exCtxDocs (by decide)⟩

/-- C4 (amended): for a package that is present and truthy, context
construction succeeds iff package_type equals one of the two enum values
"doc" or "zip" and, when it is "zip", package_name is truthy (non-empty);
every failure is one of the three validation errors naming the package. -/
theorem package_type_validation (cfg : Config) (pid : String) (pkg : PyVal)
    (hlk : lookupPackage cfg pid = Option.some pkg) (htr : pkg.truthy = true) :
    ((∃ c, get_template_context pid cfg = Except.ok c) ↔
      (((pkg.getD "package_type" PyVal.none).isStr "doc" = true ∨
        (pkg.getD "package_type" PyVal.none).isStr "zip" = true) ∧
        ((pkg.getD "package_type" PyVal.none).isStr "zip" = true →
          (pkg.getD "package_name" PyVal.none).truthy = true)))
    ∧ (∀ e, get_template_context pid cfg = Except.error e →
        e = CtxError.missingPackageType pid ∨
        e = CtxError.invalidPackageType pid (pkg.getD "package_type" PyVal.none) ∨
        e = CtxError.missingPackageName pid) := by
  unfold get_template_context
  rw [hlk]
  simp only [Option.getD_some, htr, Bool.not_true, Bool.false_eq_true, if_false]
  cases hpt : (pkg.getD "package_type" PyVal.none).truthy
  · simp only [Bool.not_false, if_true]
    constructor
    · constructor
      · rintro ⟨c, hc⟩
        simp at hc
      · rintro ⟨hdz, _⟩
        rcases hdz with hd | hz
        · simpa [hpt] using isStr_truthy hd (by decide)
        · simpa [hpt] using isStr_truthy hz (by decide)
    · intro e he
      injection he with h
      exact Or.inl h.symm
  · simp only [Bool.not_true, Bool.false_eq_true, if_false]
    cases hdoc : (pkg.getD "package_type" PyVal.none).isStr "doc"
    · cases hzip : (pkg.getD "package_type" PyVal.none).isStr "zip"
      · simp only [hdoc, hzip, Bool.or_false, Bool.not_false, if_true]
        constructor
        · constructor
          · rintro ⟨c, hc⟩
            simp at hc
          · rintro ⟨hdz, _⟩
            simp at hdz
        · intro e he
          injection he with h
          exact Or.inr (Or.inl h.symm)
      · cases hpn : (pkg.getD "package_name" PyVal.none).truthy
        · simp only [hdoc, hzip, hpn, Bool.false_or, Bool.not_true, Bool.false_eq_true, if_false,
            Bool.not_false, Bool.and_true, if_true]
          constructor
          · constructor
            · rintro ⟨c, hc⟩
              simp at hc
            · rintro ⟨_, himp⟩
              simp at himp
          · intro e he
            injection he with h
            exact Or.inr (Or.inr h.symm)
        · simp only [hdoc, hzip, hpn, Bool.false_or, Bool.not_true, Bool.false_eq_true, if_false,
            Bool.and_false]
          constructor
          · simp
          · intro e he
            simp at he
    · cases hzip : (pkg.getD "package_type" PyVal.none).isStr "zip"
      · simp only [hdoc, hzip, Bool.true_or, Bool.not_true, Bool.false_eq_true, if_false,
          Bool.false_and]
        constructor
        · simp
        · intro e he
          simp at he
      · cases hpn : (pkg.getD "package_name" PyVal.none).truthy
        · simp only [hdoc, hzip, hpn, Bool.true_or, Bool.not_true, Bool.false_eq_true, if_false,
            Bool.not_false, Bool.and_true, if_true]
          constructor
          · constructor
            · rintro ⟨c, hc⟩
              simp at hc
            · rintro ⟨_, himp⟩
              simp at himp
          · intro e he
            injection he with h
            exact Or.inr (Or.inr h.symm)
        · simp only [hdoc, hzip, hpn, Bool.true_or, Bool.not_true, Bool.false_eq_true, if_false,
            Bool.and_false]
          constructor
          · simp
          · intro e he
            simp at he

/-- A manifest whose only package declares the spec's third enum value as
its type. -/
def exCfgNoneType : Config :=
  ⟨[("p1", PyVal.dict [("package_type", PyVal.str "none")])], []⟩

/-- C4 counterexample: a package whose type is the spec's claimed third
enum value is rejected by validation — the code accepts exactly two
package types, doc and zip. -/
theorem third_enum_type_rejected_cex :
    get_template_context "p1" exCfgNoneType =
      Except.error (CtxError.invalidPackageType "p1" (PyVal.str "none")) := by
  rfl

/-- A doc-type package value used to witness successful validation. -/
def pkgDoc : PyVal := PyVal.dict [("package_type", PyVal.str "doc")]

/-- A manifest holding only pkgDoc. -/
def exCfgDocType : Config := ⟨[("p2", pkgDoc)], []⟩

theorem package_type_validation_witness :
    lookupPackage exCfgDocType "p2" = Option.some pkgDoc ∧ pkgDoc.truthy = true ∧
    (((∃ c, get_template_context "p2" exCfgDocType = Except.ok c) ↔
      (((pkgDoc.getD "package_type" PyVal.none).isStr "doc" = true ∨
        (pkgDoc.getD "package_type" PyVal.none).isStr "zip" = true) ∧
        ((pkgDoc.getD "package_type" PyVal.none).isStr "zip" = true →
          (pkgDoc.getD "package_name" PyVal.none).truthy = true)))
    ∧ (∀ e, get_template_context "p2" exCfgDocType = Except.error e →
        e = CtxError.missingPackageType "p2" ∨
        e = CtxError.invalidPackageType "p2" (pkgDoc.getD "package_type" PyVal.none) ∨
        e = CtxError.missingPackageName "p2")) :=
  ⟨rfl, rfl, package_type_validation exCfgDocType "p2" pkgDoc rfl rfl⟩

/-- C10: the Unknown-package error is raised whenever the looked-up
package value is absent or falsy (an empty mapping or None), making an
empty package entry indistinguishable from a missing one. -/
theorem falsy_package_unknown (cfg : Config) (pid : String)
    (h : ∀ p, lookupPackage cfg pid = Option.some p → p.truthy = false) :
    get_template_context pid cfg = Except.error (CtxError.unknownPackage pid) := by
  unfold get_template_context
  rcases hl : lookupPackage cfg pid with _ | p
  · rfl
  · have hp := h p hl
    simp [hp]

/-- A manifest where package p1 is declared but its definition is the
empty mapping. -/
def exCfgEmptyPkg : Config := ⟨[("p1", PyVal.dict [])], []⟩

theorem falsy_package_unknown_witness :
    (∀ p, lookupPackage exCfgEmptyPkg "p1" = Option.some p → p.truthy = false) ∧
    get_template_context "p1" exCfgEmptyPkg =
      Except.error (CtxError.unknownPackage "p1") := by
  have hd : ∀ p, lookupPackage exCfgEmptyPkg "p1" = Option.some p → p.truthy = false := by
    intro p hp
    have hp' : Option.some (PyVal.dict ([] : List (String × PyVal))) = Option.some p := hp
    cases hp'
    rfl
  exact ⟨hd, falsy_package_unknown exCfgEmptyPkg "p1" hd⟩

theorem mem_foldr_append {α β : Type} (f : α → List β) (l : List α) (x : β) :
    x ∈ l.foldr (fun a acc => f a ++ acc) [] ↔ ∃ a ∈ l, x ∈ f a := by
  induction l with
  | nil => simp
  | cons a rest ih => simp [List.mem_append, ih]

theorem mem_get_generated_files {cfg : Config} {x : String} :
    x ∈ get_generated_files cfg ↔
      ∃ pp ∈ cfg.packages, x ∈ packageEntries (templateFiles cfg.templates) pp.1 pp.2 := by
  unfold get_generated_files
  rw [(List.perm_insertionSort _ _).mem_iff, List.mem_dedup]
  exact mem_foldr_append _ _ _

/-- C2 (amended): every template with a non-empty destination contributes
its destination, prefixed by the package directory, to the generated path
set of every package — independent of the template's `when` predicate,
which get_generated_files never evaluates. -/
theorem template_dest_always_generated (cfg : Config) (pid : String) (pkg : PyVal) (t : TDef)
    (hp : (pid, pkg) ∈ cfg.packages) (ht : t ∈ cfg.templates) (hd : ¬ destOf t = "") :
    ((pkg.getD "dir" (PyVal.str pid)).pyStr ++ "/" ++ destOf t) ∈ get_generated_files cfg := by
  rw [mem_get_generated_files]
  refine ⟨(pid, pkg), hp, ?_⟩
  unfold packageEntries
  refine List.mem_append_left _ (List.mem_append_left _ (List.mem_append_left _
    (List.mem_append_left _ ?_)))
  exact List.mem_map.mpr ⟨destOf t, List.mem_filterMap.mpr ⟨t, ht, by simp [hd]⟩, rfl⟩

/-- A manifest with one package having no services and one template
guarded by `when: has_web`. -/
def exCfgWhen : Config :=
  ⟨[("p1", PyVal.dict [("package_type", PyVal.str "doc")])],
   [⟨"site.conf.j2", Option.none, Option.some (WhenSpec.one "has_web")⟩]⟩

/-- The context built for package p1 of exCfgWhen. -/
def exCtxWhen : PyVal :=
  match get_template_context "p1" exCfgWhen with
  | Except.ok c => c
  | Except.error _ => PyVal.none

/-- C2 counterexample: the template's `when` flag has_web is false in the
package context (the template is not applicable), yet its destination
still appears in the generated path set — membership is not conditional
on the `when` predicate. -/
theorem when_unsatisfied_dest_still_generated_cex :
    (exCtxWhen.getD "has_web" PyVal.none).truthy = false ∧
    selectTemplates exCfgWhen.templates exCtxWhen = [] ∧
    get_generated_files exCfgWhen = ["p1/site.conf"] :=
  ⟨by decide, by decide, by decide⟩

theorem template_dest_always_generated_witness :
    ("p1", PyVal.dict [("package_type", PyVal.str "doc")]) ∈ exCfgWhen.packages ∧
    (⟨"site.conf.j2", Option.none, Option.some (WhenSpec.one "has_web")⟩ : TDef) ∈
      exCfgWhen.templates ∧
    (((PyVal.dict [("package_type", PyVal.str "doc")]).getD "dir" (PyVal.str "p1")).pyStr ++ "/" ++
        destOf ⟨"site.conf.j2", Option.none, Option.some (WhenSpec.one "has_web")⟩) ∈
      get_generated_files exCfgWhen :=
  ⟨List.mem_cons_self _ _, by decide,
    template_dest_always_generated exCfgWhen "p1" (PyVal.dict [("package_type", PyVal.str "doc")])
      ⟨"site.conf.j2", Option.none, Option.some (WhenSpec.one "has_web")⟩
      (List.mem_cons_self _ _) (by decide) (by decide)⟩

/-- A filesystem path, modelled as its list of name segments below the
filesystem root (resolution joins segments; the model treats segments
literally). -/
abbrev FPath := List String

/-- Model filesystem state: the existing regular files and the existing
directories, each by absolute path. -/
structure FS where
  files : List FPath
  dirs : List FPath
  deriving DecidableEq

def FS.isFile (fs : FS) (p : FPath) : Bool := fs.files.contains p

def FS.isDir (fs : FS) (p : FPath) : Bool := fs.dirs.contains p

def FS.pexists (fs : FS) (p : FPath) : Bool := fs.isFile p || fs.isDir p

/-- A directory has a child when some file or directory lies directly
below it (Python `any(path.iterdir())`). -/
def FS.hasChild (fs : FS) (p : FPath) : Bool :=
  (fs.files ++ fs.dirs).any (fun q => p.isPrefixOf q && q.length == p.length + 1)

def FS.isEmptyDir (fs : FS) (p : FPath) : Bool := !fs.hasChild p

/-- Python `path.unlink()`. -/
def FS.unlink (fs : FS) (p : FPath) : FS :=
  ⟨fs.files.filter (fun q => !(q == p)), fs.dirs⟩

/-- Python `path.rmdir()`. -/
def FS.rmdir (fs : FS) (p : FPath) : FS :=
  ⟨fs.files, fs.dirs.filter (fun q => !(q == p))⟩

/-- Split a character list at a separator character. -/
def splitOnChar (c : Char) : List Char → List (List Char)
  | [] => [[]]
  | x :: xs =>
    let r := splitOnChar c xs
    if x == c then [] :: r
    else
      match r with
      | [] => [[x]]
      | h :: t => (x :: h) :: t

/-- Segments of a path string: split on the slash, dropping empty
components, as pathlib normalization does. -/
def segsOf (s : String) : List String :=
  ((splitOnChar '/' s.data).map (fun l => String.mk l)).filter (fun t => !(t == ""))

/-- Python `s.startswith(pre)`. -/
def strStartsWith (s pre : String) : Bool :=
  pre.data.isPrefixOf s.data

/-- Shell-glob matching with the `*` wildcard, the only wildcard the
generated doc patterns contain. -/
def globMatch : List Char → List Char → Bool
  | [], cs => cs.isEmpty
  | p :: ps, cs =>
    if p == '*' then
      globMatch ps cs ||
        (match cs with
         | [] => false
         | _ :: cs2 => globMatch (p :: ps) cs2)
    else
      match cs with
      | [] => false
      | c :: cs2 => p == c && globMatch ps cs2
  termination_by ps cs => ps.length + cs.length

/-- Whether a resolved path's final segment contains a `*` (the source's
check that an entry is a glob pattern). -/
def hasGlobStar (p : FPath) : Bool :=
  match p.getLast? with
  | Option.some s => s.data.contains '*'
  | Option.none => false

/-- Python `path.parent.glob(path.name)`: the filesystem entries directly
inside the parent whose name matches the pattern (in filesystem listing
order). -/
def globExpand (fs : FS) (p : FPath) : List FPath :=
  let parent := p.dropLast
  let pat := (p.getLastD "").data
  (fs.files ++ fs.dirs).filter
    (fun q => !q.isEmpty && q.dropLast == parent && globMatch pat (q.getLastD "").data)

/-- One reported or performed action of clean_generated. -/
inductive CAction where
  | wouldRemoveFile (p : FPath)
  | removedFile (p : FPath)
  | wouldRemoveDir (p : FPath)
  | removedDir (p : FPath)
  | wouldSkipNonEmptyDir (p : FPath)
  | skippedNonEmptyDir (p : FPath)
  deriving DecidableEq

/-- The path an action refers to. -/
def CAction.path : CAction → FPath
  | .wouldRemoveFile p => p
  | .removedFile p => p
  | .wouldRemoveDir p => p
  | .removedDir p => p
  | .wouldSkipNonEmptyDir p => p
  | .skippedNonEmptyDir p => p

/-- The body of the removal loop of clean_generated for one resolved path:
skip a vanished path; unlink a file; remove a directory only when it is
empty; report in dry-run mode instead of mutating. -/
def cleanStep (dry_run : Bool) (fs : FS) (p : FPath) : FS × List CAction :=
  if !fs.pexists p then (fs, [])
  else if fs.isFile p then
    if dry_run then (fs, [CAction.wouldRemoveFile p])
    else (fs.unlink p, [CAction.removedFile p])
  else
    if fs.isEmptyDir p then
      if dry_run then (fs, [CAction.wouldRemoveDir p])
      else (fs.rmdir p, [CAction.removedDir p])
    else
      if dry_run then (fs, [CAction.wouldSkipNonEmptyDir p])
      else (fs, [CAction.skippedNonEmptyDir p])

/-- The removal loop of clean_generated over the depth-sorted path list. -/
def cleanRun (dry_run : Bool) (fs : FS) : List FPath → FS × List CAction
  | [] => (fs, [])
  | p :: ps =>
    let st := cleanStep dry_run fs p
    let rest := cleanRun dry_run st.1 ps
    (rest.1, st.2 ++ rest.2)

/-- Resolution and depth-sorting of the entry list: each entry resolves
against the output base; a glob entry expands against the (pre-removal)
filesystem; the result is sorted by depth, deepest first (Python's stable
sort with key -len(parts)). -/
def cleanPaths (output_base : FPath) (fs : FS) (entries : List String) : List FPath :=
  let pwd : List (Nat × FPath) := entries.foldr (fun e acc =>
    (let p := output_base ++ segsOf e
     if hasGlobStar p then (globExpand fs p).map (fun q => (q.length, q))
     else [(p.length, p)]) ++ acc) []
  (pwd.insertionSort (fun a b => b.1 ≤ a.1)).map (fun x => x.2)

/-- The package directory used for filtering a single package's entries:
`config["packages"][package_id].get("dir", package_id)`. -/
def pkgDirOf (config : Config) (pid : String) : String :=
  (((lookupPackage config pid).getD PyVal.none).getD "dir" (PyVal.str pid)).pyStr

/-- The error exit of clean_generated on an unknown package id. -/
inductive CleanError where
  | unknownPackage (pid : String)
  deriving DecidableEq

/-- Embedding of clean_generated: computes the generated entries,
restricts them to one package when a package id is given (erroring on an
unknown id, returning unchanged when the restriction is empty), resolves
and depth-sorts them, and runs the removal loop. -/
def clean_generated (output_base : FPath) (config : Config) (package_id : Option String)
    (dry_run : Bool) (fs : FS) : Except CleanError (FS × List CAction) :=
  let entries := get_generated_files config
  match package_id with
  | Option.none => Except.ok (cleanRun dry_run fs (cleanPaths output_base fs entries))
  | Option.some pid =>
    if !(config.packages.any (fun pp => pp.1 == pid)) then
      Except.error (.unknownPackage pid)
    else
      let pkg_dir := pkgDirOf config pid
      let entries2 := entries.filter (fun e => strStartsWith e (pkg_dir ++ "/"))
      if entries2.isEmpty then Except.ok (fs, [])
      else Except.ok (cleanRun dry_run fs (cleanPaths output_base fs entries2))

theorem cleanStep_action_path {dry : Bool} {fs : FS} {p : FPath} {a : CAction}
    (h : a ∈ (cleanStep dry fs p).2) : a.path = p := by
  unfold cleanStep at h
  repeat' split at h
  all_goals simp_all [CAction.path]

theorem cleanRun_action_path {dry : Bool} {fs : FS} {ps : List FPath} {a : CAction}
    (h : a ∈ (cleanRun dry fs ps).2) : a.path ∈ ps := by
  induction ps generalizing fs with
  | nil => simp [cleanRun] at h
  | cons p ps ih =>
    simp only [cleanRun, List.mem_append] at h
    rcases h with h | h
    · exact List.mem_cons.mpr (Or.inl (cleanStep_action_path h))
    · exact List.mem_cons.mpr (Or.inr (ih h))

theorem cleanStep_removedDir {dry : Bool} {fs : FS} {p d : FPath}
    (h : CAction.removedDir d ∈ (cleanStep dry fs p).2) :
    d = p ∧ fs.isEmptyDir p = true := by
  unfold cleanStep at h
  repeat' split at h
  all_goals simp_all

theorem cleanRun_removedDir {dry : Bool} {fs : FS} {ps : List FPath} {d : FPath}
    (h : CAction.removedDir d ∈ (cleanRun dry fs ps).2) :
    ∃ ps₁ ps₂, ps = ps₁ ++ d :: ps₂ ∧ FS.isEmptyDir (cleanRun dry fs ps₁).1 d = true := by
  induction ps generalizing fs with
  | nil => simp [cleanRun] at h
  | cons p ps ih =>
    simp only [cleanRun, List.mem_append] at h
    rcases h with h | h
    · obtain ⟨hd, he⟩ := cleanStep_removedDir h
      subst hd
      exact ⟨[], ps, rfl, by simpa [cleanRun] using he⟩
    · obtain ⟨ps₁, ps₂, hps, he⟩ := ih h
      subst hps
      exact ⟨p :: ps₁, ps₂, rfl, by simpa [cleanRun] using he⟩

theorem cleanStep_preserves_dir {dry : Bool} {fs : FS} {p r : FPath}
    (hr : r ∈ fs.dirs) (hne : p ≠ r) : r ∈ (cleanStep dry fs p).1.dirs := by
  unfold cleanStep
  repeat' split
  all_goals simp_all [FS.unlink, FS.rmdir, List.mem_filter]
  exact fun hrp => hne hrp.symm

theorem cleanRun_preserves_dir {dry : Bool} {fs : FS} {ps : List FPath} {r : FPath}
    (hr : r ∈ fs.dirs) (hne : ∀ p ∈ ps, p ≠ r) : r ∈ (cleanRun dry fs ps).1.dirs := by
  induction ps generalizing fs with
  | nil => simpa [cleanRun] using hr
  | cons p ps ih =>
    simp only [cleanRun]
    exact ih (cleanStep_preserves_dir hr (hne p (List.mem_cons_self p ps)))
      (fun q hq => hne q (List.mem_cons.mpr (Or.inr hq)))

theorem mem_cleanPaths {base : FPath} {fs : FS} {entries : List String} {p : FPath}
    (h : p ∈ cleanPaths base fs entries) :
    ∃ e ∈ entries, (p = base ++ segsOf e) ∨
      (hasGlobStar (base ++ segsOf e) = true ∧ p ∈ globExpand fs (base ++ segsOf e)) := by
  unfold cleanPaths at h
  rw [List.mem_map] at h
  obtain ⟨x, hx, rfl⟩ := h
  rw [(List.perm_insertionSort _ _).mem_iff, mem_foldr_append] at hx
  obtain ⟨e, he, hx⟩ := hx
  by_cases hg : hasGlobStar (base ++ segsOf e) = true
  · rw [if_pos hg, List.mem_map] at hx
    obtain ⟨q, hq, rfl⟩ := hx
    exact ⟨e, he, Or.inr ⟨hg, hq⟩⟩
  · rw [if_neg hg, List.mem_singleton] at hx
    subst hx
    exact ⟨e, he, Or.inl rfl⟩

theorem hasGlobStar_ne_nil {p : FPath} (hg : hasGlobStar p = true) : p ≠ [] := by
  intro hp
  subst hp
  simp [hasGlobStar] at hg

theorem globExpand_length {fs : FS} {p q : FPath} (hg : hasGlobStar p = true)
    (h : q ∈ globExpand fs p) : q.length = p.length := by
  unfold globExpand at h
  rw [List.mem_filter] at h
  obtain ⟨-, hcond⟩ := h
  simp only [Bool.and_eq_true, Bool.not_eq_true', beq_iff_eq] at hcond
  obtain ⟨⟨hne, hdrop⟩, -⟩ := hcond
  have hne2 : q ≠ [] := by
    cases q with
    | nil => simp at hne
    | cons a as => simp
  have hp := hasGlobStar_ne_nil hg
  have h1 : q.dropLast.length = p.dropLast.length := by rw [hdrop]
  have h2 : q.length - 1 = p.length - 1 := by
    simpa [List.length_dropLast] using h1
  have h3 : 1 ≤ q.length := List.length_pos.mpr hne2
  have h4 : 1 ≤ p.length := List.length_pos.mpr hp
  omega

/-- C3 (amended): after removing files the executor does not recompute
any parent-directory set: every action of clean, directory removals
included, targets one of the precomputed planned paths (a resolved
generated entry or one of its glob expansions); parent directories of
removed files are never added to the work list. -/
theorem clean_acts_only_on_planned_paths (base : FPath) (cfg : Config)
    (pid? : Option String) (dry : Bool) (fs fs' : FS) (acts : List CAction) (a : CAction)
    (hrun : clean_generated base cfg pid? dry fs = Except.ok (fs', acts))
    (ha : a ∈ acts) :
    ∃ e ∈ get_generated_files cfg, (a.path = base ++ segsOf e) ∨
      (hasGlobStar (base ++ segsOf e) = true ∧ a.path ∈ globExpand fs (base ++ segsOf e)) := by
  rcases pid? with _ | pid
  · simp only [clean_generated] at hrun
    injection hrun with h
    have hacts : acts =
        (cleanRun dry fs (cleanPaths base fs (get_generated_files cfg))).2 :=
      (congrArg Prod.snd h).symm
    rw [hacts] at ha
    exact mem_cleanPaths (cleanRun_action_path ha)
  · simp only [clean_generated] at hrun
    split at hrun
    · exact absurd hrun (by simp)
    · split at hrun
      · injection hrun with h
        have hacts : acts = [] := (congrArg Prod.snd h).symm
        rw [hacts] at ha
        simp at ha
      · injection hrun with h
        have hacts : acts = (cleanRun dry fs (cleanPaths base fs
            ((get_generated_files cfg).filter
              (fun e => strStartsWith e (pkgDirOf cfg pid ++ "/"))))).2 :=
          (congrArg Prod.snd h).symm
        rw [hacts] at ha
        obtain ⟨e, he, hor⟩ := mem_cleanPaths (cleanRun_action_path ha)
        exact ⟨e, List.mem_of_mem_filter he, hor⟩

/-- A manifest with one package and one template rendering into a
subdirectory of the package directory. -/
def exCfgSub : Config :=
  ⟨[("p1", PyVal.dict [("package_type", PyVal.str "doc")])],
   [⟨"sub/file.txt.j2", Option.none, Option.none⟩]⟩

/-- Filesystem holding only the generated file and its ancestors. -/
def fsSub : FS :=
  ⟨[["out", "p1", "sub", "file.txt"]], [["out"], ["out", "p1"], ["out", "p1", "sub"]]⟩

/-- The same filesystem after the generated file is removed. -/
def fsSubAfter : FS :=
  ⟨[], [["out"], ["out", "p1"], ["out", "p1", "sub"]]⟩

/-- C3 counterexample: a real clean removes the planned file but leaves
its parent directory behind even though that directory is now empty, lies
below the output root and is not the package root — no parent-directory
set is recomputed after file removal. -/
theorem parent_dir_left_behind_cex :
    clean_generated ["out"] exCfgSub Option.none false fsSub =
      Except.ok (fsSubAfter, [CAction.removedFile ["out", "p1", "sub", "file.txt"]]) ∧
    ["out", "p1", "sub"] ∈ fsSubAfter.dirs ∧
    FS.isEmptyDir fsSubAfter ["out", "p1", "sub"] = true ∧
    ["out", "p1", "sub"] ≠ ["out"] ++ segsOf (pkgDirOf exCfgSub "p1") :=
  ⟨rfl, by decide, by decide, by decide⟩

theorem clean_acts_only_on_planned_paths_witness :
    (clean_generated ["out"] exCfgSub Option.none false fsSub =
      Except.ok (fsSubAfter, [CAction.removedFile ["out", "p1", "sub", "file.txt"]])) ∧
    (CAction.removedFile ["out", "p1", "sub", "file.txt"] ∈
      [CAction.removedFile ["out", "p1", "sub", "file.txt"]]) ∧
    ∃ e ∈ get_generated_files exCfgSub,
      ((CAction.removedFile ["out", "p1", "sub", "file.txt"]).path = ["out"] ++ segsOf e) ∨
      (hasGlobStar (["out"] ++ segsOf e) = true ∧
        (CAction.removedFile ["out", "p1", "sub", "file.txt"]).path ∈
          globExpand fsSub (["out"] ++ segsOf e)) :=
  ⟨rfl, by decide,
    clean_acts_only_on_planned_paths ["out"] exCfgSub Option.none false fsSub fsSubAfter
      [CAction.removedFile ["out", "p1", "sub", "file.txt"]]
      (CAction.removedFile ["out", "p1", "sub", "file.txt"]) rfl (by decide)⟩

/-- C8 (amended): cleanup never removes a directory that is non-empty at
the moment it examines it, and never removes the cleaned package's root
output directory provided every generated entry selected for that package
resolves strictly below the root (more path segments than the root) — a
proviso that holds for ordinary manifests but that a degenerate entry such
as an empty-string copy_files item violates. -/
theorem clean_safety (dry : Bool) (base : FPath) (cfg : Config) (pid : String)
    (fs fs' : FS) (acts : List CAction)
    (hrun : clean_generated base cfg (Option.some pid) dry fs = Except.ok (fs', acts))
    (hin : (base ++ segsOf (pkgDirOf cfg pid)) ∈ fs.dirs)
    (hlen : ∀ e ∈ (get_generated_files cfg).filter
        (fun e => strStartsWith e (pkgDirOf cfg pid ++ "/")),
      (base ++ segsOf (pkgDirOf cfg pid)).length < (base ++ segsOf e).length) :
    ((base ++ segsOf (pkgDirOf cfg pid)) ∈ fs'.dirs) ∧
    (∀ fs2 ps d, CAction.removedDir d ∈ (cleanRun dry fs2 ps).2 →
      ∃ ps₁ ps₂, ps = ps₁ ++ d :: ps₂ ∧
        FS.isEmptyDir (cleanRun dry fs2 ps₁).1 d = true) := by
  refine ⟨?_, fun fs2 ps d h => cleanRun_removedDir h⟩
  simp only [clean_generated] at hrun
  split at hrun
  · exact absurd hrun (by simp)
  · split at hrun
    · injection hrun with h
      have : fs' = fs := (congrArg Prod.fst h).symm
      rw [this]
      exact hin
    · injection hrun with h
      have hfs : fs' = (cleanRun dry fs (cleanPaths base fs
          ((get_generated_files cfg).filter
            (fun e => strStartsWith e (pkgDirOf cfg pid ++ "/"))))).1 :=
        (congrArg Prod.fst h).symm
      rw [hfs]
      refine cleanRun_preserves_dir hin ?_
      intro p hp
      obtain ⟨e, he, hor⟩ := mem_cleanPaths hp
      have hlt := hlen e he
      rcases hor with rfl | ⟨hg, hmem⟩
      · intro heq
        rw [heq] at hlt
        omega
      · intro heq
        have := globExpand_length hg hmem
        rw [heq] at this
        omega

/-- A manifest whose package declares an empty-string copy_files item,
whose generated entry resolves to the package root itself. -/
def exCfgRoot : Config :=
  ⟨[("p2", PyVal.dict [("copy_files", PyVal.list [PyVal.str ""])])], []⟩

/-- Filesystem where the package root directory exists and is empty. -/
def fsRoot : FS := ⟨[], [["out"], ["out", "p2"]]⟩

/-- C8 counterexample: cleaning package p2 removes p2's own (empty) root
output directory, because the empty-string copy_files item contributes
the entry "p2/" which resolves to the root itself. -/
theorem clean_removes_package_root_cex :
    (["out"] ++ segsOf (pkgDirOf exCfgRoot "p2")) ∈ fsRoot.dirs ∧
    clean_generated ["out"] exCfgRoot (Option.some "p2") false fsRoot =
      Except.ok (⟨[], [["out"]]⟩, [CAction.removedDir ["out", "p2"]]) ∧
    (["out"] ++ segsOf (pkgDirOf exCfgRoot "p2")) ∉ (FS.mk [] [["out"]]).dirs :=
  ⟨by decide, rfl, by decide⟩

theorem clean_safety_witness :
    (clean_generated ["out"] exCfgSub (Option.some "p1") false fsSub =
      Except.ok (fsSubAfter, [CAction.removedFile ["out", "p1", "sub", "file.txt"]])) ∧
    ((["out"] ++ segsOf (pkgDirOf exCfgSub "p1")) ∈ fsSub.dirs) ∧
    (∀ e ∈ (get_generated_files exCfgSub).filter
        (fun e => strStartsWith e (pkgDirOf exCfgSub "p1" ++ "/")),
      (["out"] ++ segsOf (pkgDirOf exCfgSub "p1")).length < (["out"] ++ segsOf e).length) ∧
    (((["out"] ++ segsOf (pkgDirOf exCfgSub "p1")) ∈ fsSubAfter.dirs) ∧
    (∀ fs2 ps d, CAction.removedDir d ∈ (cleanRun false fs2 ps).2 →
      ∃ ps₁ ps₂, ps = ps₁ ++ d :: ps₂ ∧
        FS.isEmptyDir (cleanRun false fs2 ps₁).1 d = true)) :=
  ⟨rfl, by decide, by decide,
    clean_safety false ["out"] exCfgSub "p1" fsSub fsSubAfter
      [CAction.removedFile ["out", "p1", "sub", "file.txt"]] rfl (by decide) (by decide)⟩

/-- Python `Path.mkdir()` restricted to one directory (no parents). -/
def FS.addDir (fs : FS) (p : FPath) : FS :=
  if fs.dirs.contains p then fs else ⟨fs.files, fs.dirs ++ [p]⟩

/-- Python `Path.mkdir(parents=True, exist_ok=True)`: create the
directory and every missing ancestor. -/
def FS.mkdirAll (fs : FS) (p : FPath) : FS :=
  (p.inits.filter (fun q => !q.isEmpty)).foldl (fun acc q => acc.addDir q) fs

/-- Python `path.write_text(...)` / `shutil.copy2(..., path)` as far as
the path structure is concerned: the file exists afterwards. -/
def FS.addFile (fs : FS) (p : FPath) : FS :=
  if fs.files.contains p then fs else ⟨fs.files ++ [p], fs.dirs⟩

/-- Python `shutil.rmtree(p)`: drop p and everything below it. -/
def FS.rmtree (fs : FS) (p : FPath) : FS :=
  ⟨fs.files.filter (fun q => !(p.isPrefixOf q)), fs.dirs.filter (fun q => !(p.isPrefixOf q))⟩

/-- Python `shutil.copytree(src, dst)`: dst appears with a rebased copy of
everything below src. -/
def FS.copyTree (fs : FS) (src dst : FPath) : FS :=
  ⟨fs.files ++ (fs.files.filterMap (fun q =>
      if src.isPrefixOf q && decide (src.length < q.length) then
        Option.some (dst ++ q.drop src.length)
      else Option.none)),
   fs.dirs ++ [dst] ++ (fs.dirs.filterMap (fun q =>
      if src.isPrefixOf q && decide (src.length < q.length) then
        Option.some (dst ++ q.drop src.length)
      else Option.none))⟩

/-- The write phase of render_templates over the selected templates: each
template is rendered (also in dry-run mode); a rendering error is
re-raised after the loop logs it; a real run creates the destination's
parent directories and writes the file. -/
def renderLoop (render : String → PyVal → Except String String) (context : PyVal)
    (output_dir : FPath) (dry_run : Bool) : List (String × String) → FS → Except String FS
  | [], fs => Except.ok fs
  | (src, dest) :: rest, fs =>
    match render src context with
    | Except.error e => Except.error e
    | Except.ok _ =>
      if dry_run then renderLoop render context output_dir dry_run rest fs
      else
        let out := output_dir ++ segsOf dest
        renderLoop render context output_dir dry_run rest ((fs.mkdirAll out.dropLast).addFile out)

/-- Embedding of render_templates: select the applicable templates, then
render and write each. -/
def render_templates (render : String → PyVal → Except String String) (tdefs : List TDef)
    (context : PyVal) (output_dir : FPath) (dry_run : Bool) (fs : FS) : Except String FS :=
  renderLoop render context output_dir dry_run (selectTemplates tdefs context) fs

/-- Embedding of copy_scripts: copy each named dependency script from the
bundled scripts directory when the source exists; a missing source only
warns; dry-run copies nothing. -/
def copy_scripts (script_dir : FPath) (context : PyVal) (output_dir : FPath)
    (dry_run : Bool) (fs : FS) : FS :=
  if !(context.getD "deps_script" PyVal.none).truthy then fs
  else
    (context.getD "deps_script" PyVal.none).asDict.foldl (fun fs1 kv =>
      kv.2.asList.foldl (fun fs2 sc =>
        if fs2.pexists (script_dir ++ ["scripts"] ++ segsOf sc.pyStr) then
          if dry_run then fs2
          else (fs2.mkdirAll (output_dir ++ ["scripts"])).addFile
            (output_dir ++ ["scripts"] ++ segsOf sc.pyStr)
        else fs2) fs1) fs

/-- Source name of a copy_files item: the string itself, or its `src`
key. -/
def copySrcOf (item : PyVal) : String :=
  match item with
  | PyVal.str s => s
  | _ => (item.getD "src" PyVal.none).pyStr

/-- Destination name of a copy_files item: the string itself, or its
`dest` key defaulting to `src`. -/
def copyDstOf (item : PyVal) : String :=
  match item with
  | PyVal.str s => s
  | _ => (item.getD "dest" (item.getD "src" PyVal.none)).pyStr

/-- Embedding of copy_files: copy each static file or directory from the
bundled files directory; directories replace an existing destination;
missing sources warn and continue; dry-run copies nothing. -/
def copy_files (files_dir : FPath) (context : PyVal) (output_dir : FPath)
    (dry_run : Bool) (fs : FS) : FS :=
  if !(context.getD "copy_files" PyVal.none).truthy then fs
  else
    (context.getD "copy_files" PyVal.none).asList.foldl (fun fs1 item =>
      if !fs1.pexists (files_dir ++ segsOf (copySrcOf item)) then fs1
      else if dry_run then fs1
      else if fs1.isDir (files_dir ++ segsOf (copySrcOf item)) then
        (if fs1.pexists (output_dir ++ segsOf (copyDstOf item)) then
          fs1.rmtree (output_dir ++ segsOf (copyDstOf item))
        else fs1).copyTree (files_dir ++ segsOf (copySrcOf item))
          (output_dir ++ segsOf (copyDstOf item))
      else (fs1.mkdirAll (output_dir ++ segsOf (copyDstOf item)).dropLast).addFile
        (output_dir ++ segsOf (copyDstOf item))) fs

/-- Embedding of generate_package: a context-validation error is caught
and yields None (skip); the output directory is created when missing; an
empty template list yields None; rendering errors propagate; script and
static copies follow. -/
def generate_package (render : String → PyVal → Except String String) (config : Config)
    (output_base script_dir : FPath) (package_id : String) (dry_run : Bool) (fs : FS) :
    Except String (FS × Option FPath) :=
  match get_template_context package_id config with
  | Except.error _ => Except.ok (fs, Option.none)
  | Except.ok context =>
    let output_dir := output_base ++ segsOf (context.getD "package_dir" PyVal.none).pyStr
    let fs1 := if !fs.pexists output_dir then
        (if dry_run then fs else fs.mkdirAll output_dir)
      else fs
    if config.templates.isEmpty then Except.ok (fs1, Option.none)
    else
      match render_templates render config.templates context output_dir dry_run fs1 with
      | Except.error e => Except.error e
      | Except.ok fs2 =>
        let fs3 := copy_scripts script_dir context output_dir dry_run fs2
        let fs4 := copy_files (script_dir ++ ["files"]) context output_dir dry_run fs3
        Except.ok (fs4, Option.some output_dir)

/-- The generate-all loop of main: packages are generated in manifest
order; a ValueError from context building was already caught inside
generate_package, but a rendering exception escapes the loop. The first
component records which package ids were attempted. -/
def genAllLoop (render : String → PyVal → Except String String) (config : Config)
    (output_base script_dir : FPath) (dry_run : Bool) :
    List (String × PyVal) → FS → List String × Except String FS
  | [], fs => ([], Except.ok fs)
  | (pid, _) :: rest, fs =>
    match generate_package render config output_base script_dir pid dry_run fs with
    | Except.error e => ([pid], Except.error e)
    | Except.ok (fs', _) =>
      let r := genAllLoop render config output_base script_dir dry_run rest fs'
      (pid :: r.1, r.2)

/-- Embedding of the `gen --all` path of main. -/
def gen_all (render : String → PyVal → Except String String) (config : Config)
    (output_base script_dir : FPath) (dry_run : Bool) (fs : FS) :
    List String × Except String FS :=
  genAllLoop render config output_base script_dir dry_run config.packages fs

theorem genAllLoop_attempts (render : String → PyVal → Except String String) (cfg : Config)
    (base sdir : FPath) (dry : Bool) :
    ∀ (l : List (String × PyVal)) (fs : FS),
      (∃ rest, (genAllLoop render cfg base sdir dry l fs).1 ++ rest = l.map Prod.fst) ∧
      (∀ fs', (genAllLoop render cfg base sdir dry l fs).2 = Except.ok fs' →
        (genAllLoop render cfg base sdir dry l fs).1 = l.map Prod.fst) := by
  intro l
  induction l with
  | nil => exact fun fs => ⟨⟨[], rfl⟩, fun _ _ => rfl⟩
  | cons pp rest ih =>
    intro fs
    obtain ⟨pid, pv⟩ := pp
    simp only [genAllLoop]
    rcases hg : generate_package render cfg base sdir pid dry fs with e | r
    · refine ⟨⟨rest.map Prod.fst, rfl⟩, ?_⟩
      intro fs' h
      simp at h
    · obtain ⟨fs2, opt⟩ := r
      obtain ⟨⟨r0, hr0⟩, himp⟩ := ih fs2
      refine ⟨⟨r0, ?_⟩, ?_⟩
      · simp only [List.map_cons, List.cons_append, hr0]
      · intro fs' h
        simp only [List.map_cons]
        rw [himp fs' h]

/-- C5 (amended): in generate-all mode the attempted package ids always
form a prefix of the manifest package list, and the whole list is covered
exactly when no rendering error occurred: a context-validation failure is
caught inside generate_package and the loop continues, but a rendering
failure propagates out of the loop and the remaining packages are never
attempted. -/
theorem gen_all_render_failure_aborts (render : String → PyVal → Except String String)
    (cfg : Config) (base sdir : FPath) (dry : Bool) (fs : FS) :
    (∃ rest, (gen_all render cfg base sdir dry fs).1 ++ rest = cfg.packages.map Prod.fst) ∧
    (∀ fs', (gen_all render cfg base sdir dry fs).2 = Except.ok fs' →
      (gen_all render cfg base sdir dry fs).1 = cfg.packages.map Prod.fst) :=
  genAllLoop_attempts render cfg base sdir dry cfg.packages fs

/-- A manifest with two valid packages and a template that renders for
both. -/
def exCfgTwo : Config :=
  ⟨[("p1", PyVal.dict [("package_type", PyVal.str "doc")]),
    ("p2", PyVal.dict [("package_type", PyVal.str "doc")])],
   [⟨"readme.md.j2", Option.none, Option.none⟩]⟩

/-- A rendering collaborator that always fails. -/
def failRender : String → PyVal → Except String String := fun _ _ => Except.error "boom"

/-- A rendering collaborator that always succeeds. -/
def okRender : String → PyVal → Except String String := fun _ _ => Except.ok "content"

/-- C5 counterexample: with two valid packages, a rendering failure while
generating the first aborts the whole generate-all loop: the second
package is never attempted, contradicting the claim that each package's
generation is independently attempted. -/
theorem render_failure_stops_loop_cex :
    (gen_all failRender exCfgTwo ["out"] ["stencil"] false ⟨[], [["out"]]⟩).1 = ["p1"] ∧
    (gen_all failRender exCfgTwo ["out"] ["stencil"] false ⟨[], [["out"]]⟩).2 =
      Except.error "boom" ∧
    "p2" ∈ exCfgTwo.packages.map Prod.fst :=
  ⟨rfl, rfl, by decide⟩

theorem gen_all_render_failure_aborts_witness :
    ((gen_all okRender exCfgTwo ["out"] ["stencil"] false ⟨[], [["out"]]⟩).2 =
      Except.ok ⟨[["out", "p1", "readme.md"], ["out", "p2", "readme.md"]],
        [["out"], ["out", "p1"], ["out", "p2"]]⟩) ∧
    (gen_all okRender exCfgTwo ["out"] ["stencil"] false ⟨[], [["out"]]⟩).1 =
      exCfgTwo.packages.map Prod.fst :=
  ⟨rfl,
    (gen_all_render_failure_aborts okRender exCfgTwo ["out"] ["stencil"] false
      ⟨[], [["out"]]⟩).2
      ⟨[["out", "p1", "readme.md"], ["out", "p2", "readme.md"]],
        [["out"], ["out", "p1"], ["out", "p2"]]⟩ rfl⟩

theorem cleanStep_dry (fs : FS) (p : FPath) : (cleanStep true fs p).1 = fs := by
  unfold cleanStep
  repeat' split
  all_goals simp_all

theorem cleanRun_dry (fs : FS) (ps : List FPath) : (cleanRun true fs ps).1 = fs := by
  induction ps generalizing fs with
  | nil => rfl
  | cons p ps ih => simp [cleanRun, cleanStep_dry, ih]

theorem foldl_fixed {α β : Type} (f : β → α → β) (l : List α) (b : β)
    (h : ∀ x a, f x a = x) : l.foldl f b = b := by
  induction l generalizing b with
  | nil => rfl
  | cons a rest ih => rw [List.foldl_cons, h, ih]

theorem renderLoop_dry {render : String → PyVal → Except String String} {context : PyVal}
    {output_dir : FPath} {ts : List (String × String)} {fs fs' : FS}
    (h : renderLoop render context output_dir true ts fs = Except.ok fs') : fs' = fs := by
  induction ts generalizing fs with
  | nil =>
    injection h with h2
    exact h2.symm
  | cons t rest ih =>
    obtain ⟨src, dest⟩ := t
    simp only [renderLoop] at h
    rcases hr : render src context with e | c
    · rw [hr] at h
      simp at h
    · rw [hr] at h
      exact ih h

theorem copy_scripts_dry (sdir : FPath) (ctx : PyVal) (odir : FPath) (fs : FS) :
    copy_scripts sdir ctx odir true fs = fs := by
  unfold copy_scripts
  split
  · rfl
  · refine foldl_fixed _ _ _ ?_
    intro x a
    refine foldl_fixed _ _ _ ?_
    intro y b
    by_cases hp : FS.pexists y (sdir ++ ["scripts"] ++ segsOf b.pyStr) = true
    · rw [if_pos hp]
      simp
    · rw [if_neg hp]

theorem copy_files_dry (fdir : FPath) (ctx : PyVal) (odir : FPath) (fs : FS) :
    copy_files fdir ctx odir true fs = fs := by
  unfold copy_files
  split
  · rfl
  · refine foldl_fixed _ _ _ ?_
    intro x a
    by_cases hp : (!FS.pexists x (fdir ++ segsOf (copySrcOf a))) = true
    · rw [if_pos hp]
    · rw [if_neg hp]
      simp

theorem generate_package_dry {render : String → PyVal → Except String String} {cfg : Config}
    {base sdir : FPath} {pid : String} {fs : FS} {r : FS × Option FPath}
    (h : generate_package render cfg base sdir pid true fs = Except.ok r) : r.1 = fs := by
  unfold generate_package at h
  rcases hc : get_template_context pid cfg with e | ctx
  · rw [hc] at h
    dsimp only at h
    injection h with h2
    rw [← h2]
  · rw [hc] at h
    dsimp only at h
    simp only [eq_self_iff_true, if_true, ite_self] at h
    split at h
    · injection h with h2
      rw [← h2]
    · rcases hr : render_templates render cfg.templates ctx
          (base ++ segsOf ((ctx.getD "package_dir" PyVal.none).pyStr)) true fs with e2 | fs2
      · rw [hr] at h
        dsimp only at h
        exact absurd h (by simp)
      · rw [hr] at h
        dsimp only at h
        rw [copy_scripts_dry, copy_files_dry] at h
        injection h with h2
        rw [← h2]
        dsimp only
        rw [render_templates] at hr
        exact renderLoop_dry hr

/-- C9 (amended): dry-run issues zero filesystem mutations, in cleanup as
in generation; the cleanup control flow, however, evaluates its emptiness
checks against the unmutated filesystem and can take different branches
than a real run (see the counterexample). -/
theorem dry_run_no_mutation :
    (∀ (base : FPath) (cfg : Config) (pid? : Option String) (fs fs' : FS)
        (acts : List CAction),
      clean_generated base cfg pid? true fs = Except.ok (fs', acts) → fs' = fs)
    ∧ (∀ (render : String → PyVal → Except String String) (cfg : Config)
        (base sdir : FPath) (pid : String) (fs : FS) (r : FS × Option FPath),
      generate_package render cfg base sdir pid true fs = Except.ok r → r.1 = fs) := by
  constructor
  · intro base cfg pid? fs fs' acts hrun
    rcases pid? with _ | pid
    · simp only [clean_generated] at hrun
      injection hrun with h
      have := congrArg Prod.fst h
      simp only [cleanRun_dry] at this
      exact this.symm
    · simp only [clean_generated] at hrun
      split at hrun
      · exact absurd hrun (by simp)
      · split at hrun
        · injection hrun with h
          exact (congrArg Prod.fst h).symm
        · injection hrun with h
          have := congrArg Prod.fst h
          simp only [cleanRun_dry] at this
          exact this.symm
  · intro render cfg base sdir pid fs r h
    exact generate_package_dry h

/-- A manifest whose package needs a scripts directory and whose template
renders into it. -/
def exCfgDry : Config :=
  ⟨[("p3", PyVal.dict [("deps_script", PyVal.dict [("linux", PyVal.list [])])])],
   [⟨"scripts/foo.sh.j2", Option.none, Option.none⟩]⟩

/-- Filesystem holding the generated script file and its ancestors. -/
def fsDry : FS :=
  ⟨[["out", "p3", "scripts", "foo.sh"]], [["out"], ["out", "p3"], ["out", "p3", "scripts"]]⟩

/-- C9 counterexample: a real clean removes the scripts file and then the
directory it emptied, while dry-run — checking emptiness against the
unmutated filesystem — takes the skip-non-empty branch for that same
directory: the control flow differs between the two modes (dry-run still
mutates nothing). -/
theorem dry_run_control_flow_diverges_cex :
    clean_generated ["out"] exCfgDry Option.none false fsDry =
      Except.ok (⟨[], [["out"], ["out", "p3"]]⟩,
        [CAction.removedFile ["out", "p3", "scripts", "foo.sh"],
         CAction.removedDir ["out", "p3", "scripts"]]) ∧
    clean_generated ["out"] exCfgDry Option.none true fsDry =
      Except.ok (fsDry,
        [CAction.wouldRemoveFile ["out", "p3", "scripts", "foo.sh"],
         CAction.wouldSkipNonEmptyDir ["out", "p3", "scripts"]]) :=
  ⟨rfl, rfl⟩

theorem dry_run_no_mutation_witness :
    (clean_generated ["out"] exCfgDry Option.none true fsDry =
      Except.ok (fsDry,
        [CAction.wouldRemoveFile ["out", "p3", "scripts", "foo.sh"],
         CAction.wouldSkipNonEmptyDir ["out", "p3", "scripts"]])) ∧
    fsDry = fsDry :=
  ⟨rfl,
    dry_run_no_mutation.1 ["out"] exCfgDry Option.none fsDry fsDry
      [CAction.wouldRemoveFile ["out", "p3", "scripts", "foo.sh"],
       CAction.wouldSkipNonEmptyDir ["out", "p3", "scripts"]] rfl⟩

/-- The gitignore section start marker line. -/
def GITIGNORE_START : String := "# >>> stencil >>>"

/-- The gitignore section end marker line. -/
def GITIGNORE_END : String := "# <<< stencil <<<"

/-- The lines of the stencil section: start marker, one entry per line,
end marker. The section string is these lines each followed by a newline,
so as a split-on-newline list the section contributes these lines plus a
following empty part when it ends the file. File contents are modelled
throughout as their split on the newline character (a bijection with
strings, so list equality is byte identity). -/
def sectionCore (entries : List String) : List String :=
  GITIGNORE_START :: entries ++ [GITIGNORE_END]

/-- Split a line list at the first end-marker line: the lines before it
and the lines after it, or none when no line equals the end marker. -/
def splitAtEnd : List String → Option (List String × List String)
  | [] => Option.none
  | x :: xs =>
    if x = GITIGNORE_END then Option.some ([], xs)
    else (splitAtEnd xs).map (fun pr => (x :: pr.1, pr.2))

theorem splitAtEnd_eq : ∀ {l b a : List String},
    splitAtEnd l = Option.some (b, a) → l = b ++ GITIGNORE_END :: a := by
  intro l
  induction l with
  | nil => intro b a h; exact Option.noConfusion h
  | cons x xs ih =>
    intro b a h
    by_cases hx : x = GITIGNORE_END
    · rw [splitAtEnd, if_pos hx] at h
      injection h with h2
      injection h2 with hb ha
      subst hb
      subst ha
      simp [hx]
    · rw [splitAtEnd, if_neg hx] at h
      rcases hs : splitAtEnd xs with _ | ⟨b2, a2⟩
      · rw [hs] at h; exact Option.noConfusion h
      · rw [hs] at h
        simp only [Option.map_some'] at h
        injection h with h2
        injection h2 with hb ha
        subst hb
        subst ha
        simpa using ih hs

theorem splitAtEnd_append {rest : List String} : ∀ {entries : List String},
    GITIGNORE_END ∉ entries →
    splitAtEnd (entries ++ GITIGNORE_END :: rest) = Option.some (entries, rest) := by
  intro entries
  induction entries with
  | nil => intro _; simp [splitAtEnd]
  | cons e es ih =>
    intro h
    have he : ¬ e = GITIGNORE_END := by
      intro hx
      exact h (by rw [← hx]; exact List.mem_cons_self e es)
    rw [List.cons_append, splitAtEnd, if_neg he,
      ih (fun hm => h (List.mem_cons.mpr (Or.inr hm)))]
    rfl

/-- Model of one pass of `pattern.sub(stencil_section, content)` over the
line list: re.sub scans left to right; a match starts at the leftmost
line equal to the start marker that has a later end-marker line,
extends non-greedily through that first end-marker line, consumes the
optional following newline, and is replaced by the section; scanning
resumes after the match. A start marker with no later end marker matches
nothing, and then no line after it can start a match either. -/
def subAll (entries : List String) : List String → List String
  | [] => []
  | x :: xs =>
    if x = GITIGNORE_START then
      match h : splitAtEnd xs with
      | Option.none => x :: xs
      | Option.some (_, []) => sectionCore entries ++ [""]
      | Option.some (_, a :: as) => sectionCore entries ++ subAll entries (a :: as)
    else x :: subAll entries xs
  termination_by l => l.length
  decreasing_by
    · have h2 := splitAtEnd_eq h
      subst h2
      simp
      omega
    · simp

theorem subAll_nil {entries : List String} : subAll entries [] = [] := by
  rw [subAll]

theorem subAll_cons_ne {entries : List String} {x : String} {xs : List String}
    (hx : ¬ x = GITIGNORE_START) :
    subAll entries (x :: xs) = x :: subAll entries xs := by
  rw [subAll, if_neg hx]

theorem subAll_cons_none {entries xs : List String} (hs : splitAtEnd xs = Option.none) :
    subAll entries (GITIGNORE_START :: xs) = GITIGNORE_START :: xs := by
  rw [subAll, if_pos rfl]
  split
  · rfl
  · next h2 => rw [hs] at h2; exact Option.noConfusion h2
  · next h2 => rw [hs] at h2; exact Option.noConfusion h2

theorem subAll_cons_some_nil {entries xs b : List String}
    (hs : splitAtEnd xs = Option.some (b, [])) :
    subAll entries (GITIGNORE_START :: xs) = sectionCore entries ++ [""] := by
  rw [subAll, if_pos rfl]
  split
  · next h2 => rw [hs] at h2; exact Option.noConfusion h2
  · rfl
  · next h2 =>
    rw [hs] at h2
    injection h2 with h3
    injection h3 with hb ha
    exact absurd ha.symm (List.cons_ne_nil _ _)

theorem subAll_cons_some_cons {entries xs b : List String} {a : String} {as : List String}
    (hs : splitAtEnd xs = Option.some (b, a :: as)) :
    subAll entries (GITIGNORE_START :: xs) =
      sectionCore entries ++ subAll entries (a :: as) := by
  rw [subAll, if_pos rfl]
  split
  · next h2 => rw [hs] at h2; exact Option.noConfusion h2
  · next h2 =>
    rw [hs] at h2
    injection h2 with h3
    injection h3 with hb ha
    exact absurd ha (List.cons_ne_nil _ _)
  · next a2 as2 h2 =>
    rw [hs] at h2
    injection h2 with h3
    injection h3 with hb ha
    rw [ha]

theorem subAll_ne_nil {entries : List String} : ∀ {p : List String}, p ≠ [] →
    subAll entries p ≠ [] := by
  intro p hp
  match p with
  | x :: xs =>
    by_cases hx : x = GITIGNORE_START
    · subst hx
      rcases hs : splitAtEnd xs with _ | ⟨b, a⟩
      · rw [subAll_cons_none hs]
        exact List.cons_ne_nil _ _
      · match a with
        | [] =>
          rw [subAll_cons_some_nil hs]
          simp [sectionCore]
        | a0 :: as =>
          rw [subAll_cons_some_cons hs]
          simp [sectionCore]
    · rw [subAll_cons_ne hx]
      exact List.cons_ne_nil _ _

theorem subAll_append_sec {entries : List String} (hE : GITIGNORE_END ∉ entries) :
    ∀ {pre rest : List String}, GITIGNORE_START ∉ pre → rest ≠ [] →
    subAll entries (pre ++ sectionCore entries ++ rest) =
      pre ++ sectionCore entries ++ subAll entries rest := by
  intro pre
  induction pre with
  | nil =>
    intro rest hpre hrest
    simp only [List.nil_append]
    obtain ⟨r, rs, rfl⟩ := List.exists_cons_of_ne_nil hrest
    have hs : splitAtEnd (entries ++ GITIGNORE_END :: (r :: rs)) =
        Option.some (entries, r :: rs) := splitAtEnd_append hE
    have hshape : sectionCore entries ++ (r :: rs) =
        GITIGNORE_START :: (entries ++ GITIGNORE_END :: (r :: rs)) := by
      simp [sectionCore]
    rw [hshape, subAll_cons_some_cons hs]
  | cons y pre ih =>
    intro rest hpre hrest
    have hy : ¬ y = GITIGNORE_START := by
      intro he
      exact hpre (by rw [← he]; exact List.mem_cons_self y pre)
    simp only [List.cons_append]
    rw [subAll_cons_ne hy, ih (fun hm => hpre (List.mem_cons.mpr (Or.inr hm))) hrest]

theorem subAll_empty_line {entries : List String} : subAll entries [""] = [""] := by
  rw [subAll_cons_ne (by decide), subAll_nil]

/-- Model of `pattern.search(content)`: some line equals the start marker
and a line equal to the end marker follows it. -/
def hasMatch : List String → Bool
  | [] => false
  | x :: xs => if x = GITIGNORE_START then (splitAtEnd xs).isSome else hasMatch xs

theorem splitAtEnd_isSome_of_mem : ∀ {l : List String}, GITIGNORE_END ∈ l →
    (splitAtEnd l).isSome = true := by
  intro l
  induction l with
  | nil => intro h; simp at h
  | cons x xs ih =>
    intro h
    by_cases hx : x = GITIGNORE_END
    · rw [splitAtEnd, if_pos hx]
      rfl
    · rw [splitAtEnd, if_neg hx]
      have hm : GITIGNORE_END ∈ xs := by
        rcases List.mem_cons.mp h with h1 | h1
        · exact absurd h1.symm hx
        · exact h1
      rcases hs : splitAtEnd xs with _ | pr
      · rw [hs] at ih
        exact absurd (ih hm) (by simp)
      · rfl

theorem hasMatch_append_sec {entries : List String} :
    ∀ {pre rest : List String}, GITIGNORE_START ∉ pre →
    hasMatch (pre ++ sectionCore entries ++ rest) = true := by
  intro pre
  induction pre with
  | nil =>
    intro rest _
    simp only [List.nil_append]
    have hshape : sectionCore entries ++ rest =
        GITIGNORE_START :: (entries ++ GITIGNORE_END :: rest) := by
      simp [sectionCore]
    rw [hshape, hasMatch, if_pos rfl]
    exact splitAtEnd_isSome_of_mem (by simp)
  | cons y pre ih =>
    intro rest hpre
    have hy : ¬ y = GITIGNORE_START := by
      intro he
      exact hpre (by rw [← he]; exact List.mem_cons_self y pre)
    simp only [List.cons_append]
    rw [hasMatch, if_neg hy]
    exact ih (fun hm => hpre (List.mem_cons.mpr (Or.inr hm)))

theorem hasMatch_subAll {entries : List String} :
    ∀ (p : List String), hasMatch p = true → hasMatch (subAll entries p) = true := by
  have main : ∀ (n : Nat) (p : List String), p.length ≤ n → hasMatch p = true →
      hasMatch (subAll entries p) = true := by
    intro n
    induction n with
    | zero =>
      intro p hp hm
      have : p = [] := List.eq_nil_of_length_eq_zero (Nat.le_zero.mp hp)
      subst this
      exact absurd hm (by decide)
    | succ n ih =>
      intro p hp hm
      match p with
      | [] => exact absurd hm (by decide)
      | x :: xs =>
        by_cases hx : x = GITIGNORE_START
        · subst hx
          rcases hs : splitAtEnd xs with _ | ⟨b, a⟩
          · rw [hasMatch, if_pos rfl, hs] at hm
            simp at hm
          · match a with
            | [] =>
              rw [subAll_cons_some_nil hs]
              exact @hasMatch_append_sec entries [] [""] (by simp)
            | a0 :: as =>
              rw [subAll_cons_some_cons hs]
              have hshape : sectionCore entries ++ subAll entries (a0 :: as) =
                  GITIGNORE_START ::
                    (entries ++ GITIGNORE_END :: subAll entries (a0 :: as)) := by
                simp [sectionCore]
              rw [hshape, hasMatch, if_pos rfl]
              exact splitAtEnd_isSome_of_mem (by simp)
        · rw [subAll_cons_ne hx, hasMatch, if_neg hx]
          rw [hasMatch, if_neg hx] at hm
          have hlen : xs.length ≤ n := by
            simp only [List.length_cons] at hp
            omega
          exact ih xs hlen hm
  intro p
  exact main p.length p (le_refl _)

theorem subAll_idem {entries : List String} (hE : GITIGNORE_END ∉ entries) :
    ∀ (p : List String), subAll entries (subAll entries p) = subAll entries p := by
  have main : ∀ (n : Nat) (p : List String), p.length ≤ n →
      subAll entries (subAll entries p) = subAll entries p := by
    intro n
    induction n with
    | zero =>
      intro p hp
      have : p = [] := List.eq_nil_of_length_eq_zero (Nat.le_zero.mp hp)
      subst this
      simp [subAll_nil]
    | succ n ih =>
      intro p hp
      match p with
      | [] => simp [subAll_nil]
      | x :: xs =>
        by_cases hx : x = GITIGNORE_START
        · subst hx
          rcases hs : splitAtEnd xs with _ | ⟨b, a⟩
          · rw [subAll_cons_none hs, subAll_cons_none hs]
          · match a with
            | [] =>
              rw [subAll_cons_some_nil hs]
              have h2 := @subAll_append_sec entries hE [] [""] (by simp) (by simp)
              simp only [List.nil_append] at h2
              rw [h2, subAll_empty_line]
            | a0 :: as =>
              rw [subAll_cons_some_cons hs]
              have hlen : (a0 :: as).length ≤ n := by
                have hxx := splitAtEnd_eq hs
                have h5 := congrArg List.length hxx
                simp only [List.length_cons, List.length_append] at hp h5 ⊢
                omega
              have h2 := @subAll_append_sec entries hE [] (subAll entries (a0 :: as))
                (by simp) (subAll_ne_nil (List.cons_ne_nil _ _))
              simp only [List.nil_append] at h2
              rw [h2, ih (a0 :: as) hlen]
        · rw [subAll_cons_ne hx, subAll_cons_ne hx]
          have hlen : xs.length ≤ n := by
            simp only [List.length_cons] at hp
            omega
          rw [ih xs hlen]
  intro p
  exact main p.length p (le_refl _)

/-- Python `content.endswith("\n")` in the line view: at least two parts
with the last one empty. -/
def endsNL (p : List String) : Bool :=
  decide (2 ≤ p.length) && (p.getLast? == Option.some "")

/-- Python `content.endswith("\n\n")` in the line view: at least three
parts with the last two empty. -/
def endsNLNL (p : List String) : Bool :=
  decide (3 ≤ p.length) && (p.getLast? == Option.some "") &&
    (p.dropLast.getLast? == Option.some "")

/-- The blank-line fixing before appending: empty content is left alone,
content ending with a blank line is left alone, otherwise one or two
newlines are appended so the content ends with a blank line. -/
def fixTail (p : List String) : List String :=
  if p = [""] then p
  else if endsNLNL p then p
  else if endsNL p then p ++ [""]
  else p ++ ["", ""]

/-- Embedding of install_gitignore's content transformation, in the line
view (a content string c is represented by the list c.split("\n")): a
missing file becomes just the section; existing content containing a
marker match has every match replaced by the section; otherwise the
section is appended after blank-line fixing (string concatenation glues
the fixed content's trailing empty part to the section's first line,
hence the dropLast). -/
def install_gitignore (entries : List String) (c : Option (List String)) : List String :=
  match c with
  | Option.none => sectionCore entries ++ [""]
  | Option.some parts =>
    if hasMatch parts then subAll entries parts
    else (fixTail parts).dropLast ++ (sectionCore entries ++ [""])

theorem fixTail_dropLast_no_start {p : List String} (h : GITIGNORE_START ∉ p) :
    GITIGNORE_START ∉ (fixTail p).dropLast := by
  intro hm
  have hm2 : GITIGNORE_START ∈ fixTail p := (List.dropLast_sublist (fixTail p)).subset hm
  unfold fixTail at hm2
  split at hm2
  · exact h hm2
  · split at hm2
    · exact h hm2
    · split at hm2
      · rcases List.mem_append.mp hm2 with h1 | h1
        · exact h h1
        · simp at h1
          exact absurd h1 (by decide)
      · rcases List.mem_append.mp hm2 with h1 | h1
        · exact h h1
        · simp at h1
          exact absurd h1 (by decide)

/-- C7 (amended): running install twice with a fixed generated-path list
is byte-idempotent provided the end marker is not among the entries
(true of every real generated path, which contains a slash while the
marker does not) and the initial content either contains a complete
marker block or contains no start-marker line at all. An initial content
whose only start marker is dangling (no end marker after it) breaks
idempotence: see the counterexample. -/
theorem install_gitignore_idempotent (entries : List String) (c : Option (List String))
    (hE : GITIGNORE_END ∉ entries)
    (hc : ∀ parts, c = Option.some parts →
      hasMatch parts = true ∨ GITIGNORE_START ∉ parts) :
    install_gitignore entries (Option.some (install_gitignore entries c)) =
      install_gitignore entries c := by
  have hsec1 : hasMatch (sectionCore entries ++ [""]) = true :=
    @hasMatch_append_sec entries [] [""] (by simp)
  have hsub1 : subAll entries (sectionCore entries ++ [""]) =
      sectionCore entries ++ [""] := by
    have h2 := @subAll_append_sec entries hE [] [""] (by simp) (by simp)
    simp only [List.nil_append] at h2
    rw [h2, subAll_empty_line]
  rcases c with _ | parts
  · have hrun1 : install_gitignore entries Option.none =
        sectionCore entries ++ [""] := rfl
    rw [hrun1]
    simp only [install_gitignore]
    rw [if_pos hsec1, hsub1]
  · by_cases hm : hasMatch parts = true
    · have hrun1 : install_gitignore entries (Option.some parts) =
          subAll entries parts := by
        simp only [install_gitignore]
        rw [if_pos hm]
      rw [hrun1]
      simp only [install_gitignore]
      rw [if_pos (hasMatch_subAll parts hm)]
      exact subAll_idem hE parts
    · have hS : GITIGNORE_START ∉ parts := (hc parts rfl).resolve_left hm
      have hpre : GITIGNORE_START ∉ (fixTail parts).dropLast := fixTail_dropLast_no_start hS
      have hrun1 : install_gitignore entries (Option.some parts) =
          (fixTail parts).dropLast ++ (sectionCore entries ++ [""]) := by
        simp only [install_gitignore]
        rw [if_neg hm]
      rw [hrun1]
      simp only [install_gitignore]
      have hm2 : hasMatch ((fixTail parts).dropLast ++
          (sectionCore entries ++ [""])) = true := by
        have h4 := @hasMatch_append_sec entries ((fixTail parts).dropLast) [""] hpre
        simpa [List.append_assoc] using h4
      rw [if_pos hm2]
      have h3 := @subAll_append_sec entries hE ((fixTail parts).dropLast) [""] hpre (by simp)
      calc subAll entries ((fixTail parts).dropLast ++ (sectionCore entries ++ [""]))
          = subAll entries ((fixTail parts).dropLast ++ sectionCore entries ++ [""]) := by
            rw [List.append_assoc]
        _ = (fixTail parts).dropLast ++ sectionCore entries ++ subAll entries [""] := h3
        _ = (fixTail parts).dropLast ++ (sectionCore entries ++ [""]) := by
            rw [subAll_empty_line, List.append_assoc]

/-- C7 counterexample: starting from an ignore file holding just a
dangling start-marker line, the first install appends a section; the
second install's marker regex then matches from the dangling marker
through the appended section's end marker and collapses the two, so the
file after the second run differs from the file after the first. -/
theorem install_not_idempotent_cex :
    install_gitignore (get_generated_files exCfgWhen)
        (Option.some (install_gitignore (get_generated_files exCfgWhen)
          (Option.some [GITIGNORE_START, ""]))) ≠
      install_gitignore (get_generated_files exCfgWhen)
        (Option.some [GITIGNORE_START, ""]) := by
  have he : get_generated_files exCfgWhen = ["p1/site.conf"] := by decide
  rw [he]
  have h1 : install_gitignore ["p1/site.conf"] (Option.some [GITIGNORE_START, ""]) =
      [GITIGNORE_START, "", GITIGNORE_START, "p1/site.conf", GITIGNORE_END, ""] := by
    simp only [install_gitignore]
    rw [if_neg (by decide)]
    rfl
  rw [h1]
  have h2 : install_gitignore ["p1/site.conf"]
      (Option.some [GITIGNORE_START, "", GITIGNORE_START, "p1/site.conf",
        GITIGNORE_END, ""]) =
      [GITIGNORE_START, "p1/site.conf", GITIGNORE_END, ""] := by
    simp only [install_gitignore]
    rw [if_pos (by decide)]
    rw [@subAll_cons_some_cons ["p1/site.conf"]
      ["", GITIGNORE_START, "p1/site.conf", GITIGNORE_END, ""]
      ["", GITIGNORE_START, "p1/site.conf"] "" [] (by decide)]
    rw [subAll_empty_line]
    rfl
  rw [h2]
  decide

theorem install_gitignore_idempotent_witness :
    (GITIGNORE_END ∉ get_generated_files exCfgWhen) ∧
    install_gitignore (get_generated_files exCfgWhen)
        (Option.some (install_gitignore (get_generated_files exCfgWhen) Option.none)) =
      install_gitignore (get_generated_files exCfgWhen) Option.none :=
  ⟨by decide,
    install_gitignore_idempotent (get_generated_files exCfgWhen) Option.none (by decide)
      (fun _ h => Option.noConfusion h)⟩

end Stencil
